import Mathlib

/-
Verification of the Document-to-Markdown conversion engine.

The definitions below are a shallow embedding of the converter functions of
the repository (file with `convertFilesToMarkdown`, `cleanupMarkdownContent`,
`parseCSVLine`, `detectNumericColumns`, `convertArrayToMarkdownTable`,
`convertJsonToMarkdown`, `convertCsvToMarkdown`, `convertPlainTextToMarkdown`,
`getHeaderLevel`, `isHeader`, `getHeadingLevel`, `extractParagraphText`,
`readDocxFile`).  JavaScript strings are modelled as Lean `String` /
`List Char`; JavaScript regex replaces are modelled by explicit left-to-right
scanners with the same leftmost-match, continue-after-match semantics;
JavaScript numbers are modelled as `ℚ` (the claims under study never depend
on binary floating-point rounding).  External builtins (the `turndown`
HTML-to-Markdown library, `JSON.parse`) are modelled as function parameters,
since they are not part of this repository.
-/

/-! ### Character classes and small string utilities -/

/-- Named characters, to keep quote characters out of character literals. -/
def quoteChar : Char := Char.ofNat 34

def apostChar : Char := Char.ofNat 39

def lbraceChar : Char := Char.ofNat 123

def rbraceChar : Char := Char.ofNat 125

/-- JavaScript `\s` (whitespace class), restricted to the ASCII range:
space, tab, newline, carriage return, vertical tab, form feed. -/
def isWsChar (c : Char) : Bool :=
  c = ' ' || c = '\t' || c = '\n' || c = '\r' || c = Char.ofNat 11 || c = Char.ofNat 12

def isDigitChar (c : Char) : Bool := '0' ≤ c && c ≤ '9'

def isUpperChar (c : Char) : Bool := 'A' ≤ c && c ≤ 'Z'

def isLowerChar (c : Char) : Bool := 'a' ≤ c && c ≤ 'z'

def isAlphaChar (c : Char) : Bool := isUpperChar c || isLowerChar c

def isAlnumChar (c : Char) : Bool := isAlphaChar c || isDigitChar c

/-- JavaScript `\w` (word character): letters, digits, underscore. -/
def isWordChar (c : Char) : Bool := isAlnumChar c || c = '_'

/-- Drop leading JS-whitespace. -/
def trimLeftList (l : List Char) : List Char := l.dropWhile isWsChar

/-- JavaScript `String.prototype.trim` on a character list: drop leading and
trailing whitespace. -/
def trimList (l : List Char) : List Char :=
  ((l.dropWhile isWsChar).reverse.dropWhile isWsChar).reverse

/-- JavaScript `String.prototype.trim`. -/
def jsTrim (s : String) : String := ⟨trimList s.data⟩

/-- `l₁` occurs as a contiguous prefix of `l₂`. -/
def listIsPref : List Char → List Char → Bool
  | [], _ => true
  | _ :: _, [] => false
  | a :: t, b :: u => a = b && listIsPref t u

/-- `needle` occurs as a contiguous sublist of `hay`
(JavaScript `String.prototype.includes`). -/
def listHasSub (hay needle : List Char) : Bool :=
  match hay with
  | [] => needle.isEmpty
  | _ :: t => listIsPref needle hay || listHasSub t needle

/-- JavaScript `String.prototype.includes`. -/
def jsIncludes (hay needle : String) : Bool := listHasSub hay.data needle.data

/-- ASCII lower-casing of a string (JS `toLowerCase`, ASCII fragment). -/
def jsToLower (s : String) : String := ⟨s.data.map Char.toLower⟩

/-- ASCII upper-casing of a string (JS `toUpperCase`, ASCII fragment). -/
def jsToUpper (s : String) : String := ⟨s.data.map Char.toUpper⟩

/-- JavaScript `String.prototype.endsWith`. -/
def jsEndsWith (s suffixStr : String) : Bool :=
  listIsPref suffixStr.data.reverse s.data.reverse

/-- The last character of `s` is a newline. -/
def endsWithNl (s : String) : Bool := s.data.getLast? = some '\n'

/-- `'#'.repeat n`-style repetition of one character. -/
def repeatChar (c : Char) (n : Nat) : String := ⟨List.replicate n c⟩

/-- JavaScript `split('\n')` : splitting on newline, never empty
(`"".split('\n') = [""]`). -/
def splitNlList : List Char → List (List Char)
  | [] => [[]]
  | c :: t =>
    if c = '\n' then [] :: splitNlList t
    else
      match splitNlList t with
      | [] => [[c]]
      | h :: r => (c :: h) :: r

/-- JavaScript `s.split('\n')`. -/
def splitNl (s : String) : List String := (splitNlList s.data).map fun l => ⟨l⟩

/-! ### `parseCSVLine` (tabular per-line field parser)

Source:
```
function parseCSVLine(line) {
  const result = []; let current = ''; let inQuotes = false;
  for (let i = 0; i < line.length; i++) {
    const char = line[i];
    if (char === QUOTE) {
      if (inQuotes && line[i+1] === QUOTE) { current += QUOTE; i++; }
      else { inQuotes = !inQuotes; }
    } else if (char === ',' && !inQuotes) { result.push(current.trim()); current = ''; }
    else { current += char; }
  }
  result.push(current.trim());
  return result;
}
```
`current` is accumulated in reverse below and reversed when a field is
pushed. -/

def parseCSVChars (inQuotes : Bool) (current : List Char) : List Char → List String
  | [] => [⟨trimList current.reverse⟩]
  | [c] =>
    if c = quoteChar then parseCSVChars (!inQuotes) current []
    else if c = ',' && !inQuotes then ⟨trimList current.reverse⟩ :: parseCSVChars inQuotes [] []
    else parseCSVChars inQuotes (c :: current) []
  | c :: d :: rest =>
    if c = quoteChar then
      if inQuotes then
        if d = quoteChar then parseCSVChars inQuotes (quoteChar :: current) rest
        else parseCSVChars false current (d :: rest)
      else parseCSVChars true current (d :: rest)
    else if c = ',' && !inQuotes then
      ⟨trimList current.reverse⟩ :: parseCSVChars inQuotes [] (d :: rest)
    else parseCSVChars inQuotes (c :: current) (d :: rest)

def parseCSVLine (line : String) : List String := parseCSVChars false [] line.data

/-! ### JavaScript numbers

The converter uses `parseFloat`, `parseInt`, `toFixed(2)` and number
stringification.  Numbers are modelled as `ℚ` extended with `NaN` and the two
infinities (binary floating-point rounding is ignored; no claim under study
depends on it). -/

inductive JsNum where
  | nan : JsNum
  | posInf : JsNum
  | negInf : JsNum
  | fin : ℚ → JsNum
deriving DecidableEq

def jsIsNaN : JsNum → Bool
  | .nan => true
  | _ => false

def JsNum.add : JsNum → JsNum → JsNum
  | .nan, _ => .nan
  | _, .nan => .nan
  | .posInf, .negInf => .nan
  | .negInf, .posInf => .nan
  | .posInf, _ => .posInf
  | _, .posInf => .posInf
  | .negInf, _ => .negInf
  | _, .negInf => .negInf
  | .fin a, .fin b => .fin (a + b)

/-- Division by a positive integer count (used for the average);
`Rat.divInt a.num (a.den * n)` is `a / n`. -/
def JsNum.divNat (x : JsNum) (n : Nat) : JsNum :=
  match x, n with
  | _, 0 => .nan
  | .nan, _ => .nan
  | .posInf, _ => .posInf
  | .negInf, _ => .negInf
  | .fin a, n => .fin (Rat.divInt a.num (a.den * n))

/-- `Math.min` on two values (`NaN` propagates). -/
def JsNum.min2 : JsNum → JsNum → JsNum
  | .nan, _ => .nan
  | _, .nan => .nan
  | .negInf, _ => .negInf
  | _, .negInf => .negInf
  | .posInf, b => b
  | a, .posInf => a
  | .fin a, .fin b => .fin (if a ≤ b then a else b)

/-- `Math.max` on two values (`NaN` propagates). -/
def JsNum.max2 : JsNum → JsNum → JsNum
  | .nan, _ => .nan
  | _, .nan => .nan
  | .posInf, _ => .posInf
  | _, .posInf => .posInf
  | .negInf, b => b
  | a, .negInf => a
  | .fin a, .fin b => .fin (if a ≤ b then b else a)

def digitsVal (l : List Char) : Nat := l.foldl (fun a c => a * 10 + (c.toNat - 48)) 0

/-- `parseInt(s)` in radix 10: skip leading whitespace, optional sign, then a
maximal digit run; `none` models `NaN`. -/
def jsParseInt (s : String) : Option Int :=
  let l := trimLeftList s.data
  let signAndRest : Int × List Char :=
    match l with
    | c :: t => if c = '-' then (-1, t) else if c = '+' then (1, t) else (1, l)
    | [] => (1, [])
  let digits := signAndRest.2.takeWhile isDigitChar
  if digits.isEmpty then none
  else some (signAndRest.1 * (digitsVal digits : Int))

/-- Optional exponent suffix of a decimal literal (`e`/`E`, optional sign,
digits); if the digits are missing the exponent is not consumed. -/
def applyExp (q : ℚ) (l : List Char) : ℚ :=
  match l with
  | c :: t =>
    if c = 'e' || c = 'E' then
      let signAndRest : Bool × List Char :=
        match t with
        | d :: u => if d = '-' then (true, u) else if d = '+' then (false, u) else (false, t)
        | [] => (false, [])
      let ed := signAndRest.2.takeWhile isDigitChar
      if ed.isEmpty then q
      else if signAndRest.1 then Rat.divInt q.num (q.den * 10 ^ digitsVal ed)
      else Rat.divInt (q.num * 10 ^ digitsVal ed) q.den
    else q
  | [] => q

/-- Mantissa value `intPart.fracPart` as an exact rational. -/
def mantissaVal (intd frac : List Char) : ℚ :=
  Rat.divInt (digitsVal intd * 10 ^ frac.length + digitsVal frac) (10 ^ frac.length)

/-- `parseFloat(s)`: skip leading whitespace, optional sign, then the longest
prefix that is `Infinity`, `digits[.digits][exp]` or `.digits[exp]`;
anything else is `NaN`. -/
def jsParseFloat (s : String) : JsNum :=
  let l := trimLeftList s.data
  let signAndRest : Bool × List Char :=
    match l with
    | c :: t => if c = '-' then (true, t) else if c = '+' then (false, t) else (false, l)
    | [] => (false, [])
  let neg := signAndRest.1
  let l := signAndRest.2
  if listIsPref "Infinity".data l then (if neg then .negInf else .posInf)
  else
    let intd := l.takeWhile isDigitChar
    let l2 := l.drop intd.length
    let core : Option ℚ :=
      match l2 with
      | c :: t =>
        if c = '.' then
          let frac := t.takeWhile isDigitChar
          if intd.isEmpty && frac.isEmpty then none
          else some (applyExp (mantissaVal intd frac) (t.drop frac.length))
        else if intd.isEmpty then none
        else some (applyExp (mantissaVal intd []) l2)
      | [] => if intd.isEmpty then none else some (mantissaVal intd [])
    match core with
    | none => .nan
    | some q => .fin (if neg then -q else q)

/-- Render `num / 10^k` as a decimal string, trailing fractional zeros
trimmed. -/
def decimalString (num : Nat) (k : Nat) : String :=
  let intPart := num / 10 ^ k
  let fracPart := num % 10 ^ k
  if fracPart = 0 then toString intPart
  else
    let fracDigits := Nat.toDigits 10 fracPart
    let padded := List.replicate (k - fracDigits.length) '0' ++ fracDigits
    let trimmed := (padded.reverse.dropWhile (fun c => c = '0')).reverse
    toString intPart ++ "." ++ ⟨trimmed⟩

/-- JS number-to-string on the rational model: exact decimal rendering when
the denominator divides a power of ten, else a truncated 17-digit expansion
(the claims under study never reach the fallback). -/
def ratToString (q : ℚ) : String :=
  let sign := if q.num < 0 then "-" else ""
  let n := q.num.natAbs
  if q.den = 1 then sign ++ toString n
  else
    let k := (((List.range 40).find? fun k => (10 : ℕ) ^ k % q.den = 0).getD 17)
    let scaled : Nat := n * 10 ^ k / q.den
    sign ++ decimalString scaled k

/-- `toFixed(2)` on the rational model (round half away from zero):
`scaled = ⌊|q| * 100 + 1/2⌋ = (200 * |num| + den) / (2 * den)`. -/
def ratToFixed2 (q : ℚ) : String :=
  let sign := if q.num < 0 then "-" else ""
  let scaled : Nat := (q.num.natAbs * 200 + q.den) / (2 * q.den)
  sign ++ toString (scaled / 100) ++ "." ++
    (if scaled % 100 < 10 then "0" else "") ++ toString (scaled % 100)

def jsNumToString : JsNum → String
  | .nan => "NaN"
  | .posInf => "Infinity"
  | .negInf => "-Infinity"
  | .fin q => ratToString q

def jsNumToFixed2 : JsNum → String
  | .nan => "NaN"
  | .posInf => "Infinity"
  | .negInf => "-Infinity"
  | .fin q => ratToFixed2 q

/-! ### `detectNumericColumns` and `convertCsvToMarkdown` -/

/-- The cells sampled for column `colIndex`: first ≤ 10 data rows, keeping
only cells that are defined, non-empty and non-blank (`cell && cell.trim()`),
trimmed (the source applies `cell.trim()` before `parseFloat`). -/
def csvSampledCells (rows : List (List String)) (colIndex : Nat) : List String :=
  ((rows.drop 1).take 10).filterMap fun row =>
    match row.get? colIndex with
    | some cell => if (jsTrim cell).isEmpty then none else some (jsTrim cell)
    | none => none

def csvTotalCount (rows : List (List String)) (colIndex : Nat) : Nat :=
  (csvSampledCells rows colIndex).length

def csvNumericCount (rows : List (List String)) (colIndex : Nat) : Nat :=
  ((csvSampledCells rows colIndex).filter fun cell => !jsIsNaN (jsParseFloat cell)).length

/-- Source `detectNumericColumns`: no detection with fewer than 2 rows;
otherwise a column is numeric when its sample is non-empty and at least 70%
of the sampled values parse as numbers. -/
def detectNumericColumns (rows : List (List String)) : List Nat :=
  if rows.length < 2 then []
  else
    (List.range (rows.headD []).length).filter fun colIndex =>
      decide (0 < csvTotalCount rows colIndex ∧
        Rat.divInt 7 10 ≤ Rat.divInt (csvNumericCount rows colIndex) (csvTotalCount rows colIndex))

/-- Escape pipe characters for a Markdown table cell
(`replace(/\|/g, '\\|')`). -/
def escapePipes (s : String) : String :=
  ⟨s.data.foldr (fun c acc => if c = '|' then '\\' :: '|' :: acc else c :: acc) []⟩

/-- JS `a || b` on strings (empty string is falsy). -/
def jsOrStr (a b : String) : String := if a.isEmpty then b else a

/-- Numeric values of a whole column (all data rows, `parseFloat` without
extra trimming, `NaN` filtered out), as in the summary-statistics loop. -/
def csvNumericValues (rows : List (List String)) (colIndex : Nat) : List JsNum :=
  (rows.drop 1).filterMap fun row =>
    match row.get? colIndex with
    | some cell =>
      let v := jsParseFloat cell
      if jsIsNaN v then none else some v
    | none => none

/-- The `## Data Summary` block appended after the table when numeric columns
are detected. -/
def csvSummaryBlock (cleanHeader : List String) (rows : List (List String)) : String :=
  let numericColumns := detectNumericColumns rows
  if numericColumns.isEmpty then ""
  else
    "\n## Data Summary\n\n" ++ String.join (numericColumns.map fun colIndex =>
      let colName := jsOrStr (cleanHeader.getD colIndex "") ("Column " ++ toString (colIndex + 1))
      let values := csvNumericValues rows colIndex
      if values.isEmpty then ""
      else
        let sum := values.foldl JsNum.add (JsNum.fin 0)
        let avg := sum.divNat values.length
        let minv := values.foldl JsNum.min2 JsNum.posInf
        let maxv := values.foldl JsNum.max2 JsNum.negInf
        "**" ++ colName ++ ":**\n" ++
        "- Count: " ++ toString values.length ++ "\n" ++
        "- Average: " ++ jsNumToFixed2 avg ++ "\n" ++
        "- Min: " ++ jsNumToString minv ++ "\n" ++
        "- Max: " ++ jsNumToString maxv ++ "\n\n")

/-- Source `convertCsvToMarkdown`. -/
def convertCsvToMarkdown (csvContent : String) : String :=
  let lines := splitNl (jsTrim csvContent)
  if lines.length = 0 then "# Empty CSV\n"
  else
    let rows := lines.map parseCSVLine
    "# CSV Data\n\n" ++
    (if rows.length = 0 then ""
     else
      let header := rows.headD []
      "**Rows:** " ++ toString rows.length ++ "\n" ++
      "**Columns:** " ++ toString header.length ++ "\n\n" ++
      (if header.length = 0 then ""
       else
        let cleanHeader := header.map fun cell => jsOrStr (jsTrim cell) "Column"
        "| " ++ String.intercalate " | " cleanHeader ++ " |\n" ++
        "| " ++ String.intercalate " | " (cleanHeader.map fun _ => "---") ++ " |\n" ++
        String.join ((rows.drop 1).map fun row =>
          if row.length = 0 then ""
          else
            let paddedRow := row ++ List.replicate (cleanHeader.length - row.length) ""
            let cleanRow := (paddedRow.take cleanHeader.length).map fun cell =>
              escapePipes (jsTrim cell)
            "| " ++ String.intercalate " | " cleanRow ++ " |\n") ++
        csvSummaryBlock cleanHeader rows))

/-! ### `cleanupMarkdownContent`

Source:
```
cleaned = cleaned.replace(/\n{4,}/g, '\n\n\n');
cleaned = cleaned.replace(/\n(#{1,6}\s)/g, '\n\n$1');
cleaned = cleaned.replace(/(#{1,6}\s[^\n]+)\n(?!\n)/g, '$1\n\n');
cleaned = cleaned.replace(/[ \t]+$/gm, '');
cleaned = cleaned.replace(/([.!?])([A-Z])/g, '$1 $2');
cleaned = cleaned.replace(/([,;:])([a-zA-Z])/g, '$1 $2');
cleaned = cleaned.trim();
if (cleaned && !cleaned.endsWith('\n')) cleaned += '\n';
```
Each global replace is a left-to-right scan that, on a match, continues
after the matched text.  The scanners for the two heading rules consume a
variable number of characters per step, so they take a fuel argument; every
step consumes at least one character, hence fuel = input length suffices and
the fuel-0 fallback is never reached. -/

/-- `replace(/\n{4,}/g, '\n\n\n')`: every maximal run of `n` newlines is
emitted as `min n 3` newlines (runs of 1–3 are unchanged). -/
def collapseNlGo : Nat → List Char → List Char
  | n, [] => List.replicate (min n 3) '\n'
  | n, c :: t =>
    if c = '\n' then collapseNlGo (n + 1) t
    else List.replicate (min n 3) '\n' ++ c :: collapseNlGo 0 t

def collapseNewlines (l : List Char) : List Char := collapseNlGo 0 l

/-- `replace(/\n(#{1,6}\s)/g, '\n\n$1')`: a newline directly followed by a
full run of 1–6 `#` and a whitespace character gets a second newline.  A run
of 7+ `#` cannot match (the character after the consumed hashes must be
whitespace). -/
def step2Go : Nat → List Char → List Char
  | 0, l => l
  | fuel + 1, l =>
    match l with
    | [] => []
    | c :: t =>
      if c = '\n' then
        let hs := t.takeWhile fun x => x = '#'
        let rest := t.drop hs.length
        if 1 ≤ hs.length && hs.length ≤ 6 then
          match rest with
          | d :: u =>
            if isWsChar d then '\n' :: '\n' :: (hs ++ d :: step2Go fuel u)
            else '\n' :: step2Go fuel t
          | [] => '\n' :: step2Go fuel t
        else '\n' :: step2Go fuel t
      else c :: step2Go fuel t

/-- `replace(/(#{1,6}\s[^\n]+)\n(?!\n)/g, '$1\n\n')`: a heading-looking
group (1–6 `#`, a whitespace, at least one further non-newline character up
to the end of the line) whose terminating newline is not followed by another
newline gets one extra newline; the lookahead also succeeds at the end of the
string. -/
def step3Go : Nat → List Char → List Char
  | 0, l => l
  | fuel + 1, l =>
    match l with
    | [] => []
    | c :: t =>
      let hs := l.takeWhile fun x => x = '#'
      let noMatch : List Char := c :: step3Go fuel t
      if 1 ≤ hs.length && hs.length ≤ 6 then
        match l.drop hs.length with
        | d :: u =>
          if isWsChar d then
            let body := u.takeWhile fun x => x ≠ '\n'
            if body.isEmpty then noMatch
            else
              match u.drop body.length with
              | nl :: v =>
                if nl = '\n' then
                  match v with
                  | '\n' :: _ => noMatch
                  | _ => hs ++ d :: (body ++ '\n' :: '\n' :: step3Go fuel v)
                else noMatch
              | [] => noMatch
          else noMatch
        | [] => noMatch
      else noMatch

/-- Strip trailing spaces/tabs of one line (`/[ \t]+$/`). -/
def stripTrailingWsLine (l : List Char) : List Char :=
  (l.reverse.dropWhile fun c => c = ' ' || c = '\t').reverse

/-- Join lines with newlines (inverse of `splitNlList`). -/
def joinNlList : List (List Char) → List Char
  | [] => []
  | [l] => l
  | l :: r => l ++ '\n' :: joinNlList r

/-- `replace(/[ \t]+$/gm, '')`. -/
def stripTrailingWs (l : List Char) : List Char :=
  joinNlList ((splitNlList l).map stripTrailingWsLine)

/-- `replace(/([.!?])([A-Z])/g, '$1 $2')`. -/
def step5 : List Char → List Char
  | a :: b :: t =>
    if (a = '.' || a = '!' || a = '?') && isUpperChar b then a :: ' ' :: b :: step5 t
    else a :: step5 (b :: t)
  | l => l

/-- `replace(/([,;:])([a-zA-Z])/g, '$1 $2')`. -/
def step6 : List Char → List Char
  | a :: b :: t =>
    if (a = ',' || a = ';' || a = ':') && isAlphaChar b then a :: ' ' :: b :: step6 t
    else a :: step6 (b :: t)
  | l => l

/-- Source `cleanupMarkdownContent`. -/
def cleanupMarkdownContent (content : String) : String :=
  let c1 := collapseNewlines content.data
  let c2 := step2Go c1.length c1
  let c3 := step3Go c2.length c2
  let c4 := stripTrailingWs c3
  let c5 := step5 c4
  let c6 := step6 c5
  let cleaned : String := ⟨trimList c6⟩
  if cleaned.isEmpty then cleaned
  else if jsEndsWith cleaned "\n" then cleaned
  else cleaned ++ "\n"

/-! ### JSON value tree and the hierarchical converter -/

inductive Json where
  | null : Json
  | bool : Bool → Json
  | num : ℚ → Json
  | str : String → Json
  | arr : List Json → Json
  | obj : List (String × Json) → Json

/-- `typeof x === 'object' && x !== null` (arrays are objects in JS). -/
def Json.isObjLike : Json → Bool
  | .arr _ => true
  | .obj _ => true
  | _ => false

def jsTypeof : Json → String
  | .null => "object"
  | .bool _ => "boolean"
  | .num _ => "number"
  | .str _ => "string"
  | .arr _ => "object"
  | .obj _ => "object"

/-- `Object.keys`: field names of an object in order; index strings for an
array; empty otherwise. -/
def jsKeys : Json → List String
  | .obj fs => fs.map fun p => p.1
  | .arr l => (List.range l.length).map toString
  | _ => []

/-- JS `key in item`. -/
def jsHasKey (j : Json) (k : String) : Bool := (jsKeys j).contains k

/-- JS `item[key]`. -/
def jsGetKey (j : Json) (k : String) : Option Json :=
  match j with
  | .obj fs => (fs.find? fun p => p.1 = k).map fun p => p.2
  | .arr l => (l.enum.find? fun p => toString p.1 = k).map fun p => p.2
  | _ => none

mutual
/-- `String(value)`; inside `Array.prototype.join` null elements render
empty (see `jsStringOfJoin`). -/
def jsStringOf : Json → String
  | .null => "null"
  | .bool true => "true"
  | .bool false => "false"
  | .num q => ratToString q
  | .str s => s
  | .arr l => jsStringOfJoin l
  | .obj _ => "[object Object]"

def jsStringOfJoin : List Json → String
  | [] => ""
  | [j] => (match j with | .null => "" | x => jsStringOf x)
  | j :: rest => (match j with | .null => "" | x => jsStringOf x) ++ "," ++ jsStringOfJoin rest
end

def hexDigitChar (n : Nat) : Char :=
  if n < 10 then Char.ofNat (48 + n) else Char.ofNat (97 + n - 10)

def hex4 (n : Nat) : List Char :=
  [hexDigitChar (n / 4096 % 16), hexDigitChar (n / 256 % 16),
   hexDigitChar (n / 16 % 16), hexDigitChar (n % 16)]

/-- `JSON.stringify` escaping for one character. -/
def jsonEscapeChar (c : Char) : List Char :=
  if c = quoteChar then ['\\', quoteChar]
  else if c = '\\' then ['\\', '\\']
  else if c = '\n' then ['\\', 'n']
  else if c = '\t' then ['\\', 't']
  else if c = '\r' then ['\\', 'r']
  else if c = Char.ofNat 8 then ['\\', 'b']
  else if c = Char.ofNat 12 then ['\\', 'f']
  else if c.toNat < 32 then '\\' :: 'u' :: hex4 c.toNat
  else [c]

def jsonEscapeStr (s : String) : String :=
  ⟨s.data.foldr (fun c acc => jsonEscapeChar c ++ acc) []⟩

mutual
/-- Compact `JSON.stringify` (also used for `JSON.stringify(scalar, null, 2)`,
which coincides with the compact form on scalars). -/
def jsonStringify : Json → String
  | .null => "null"
  | .bool true => "true"
  | .bool false => "false"
  | .num q => ratToString q
  | .str s => "\"" ++ jsonEscapeStr s ++ "\""
  | .arr l => "[" ++ jsonStringifyList l ++ "]"
  | .obj fs => "\x7b" ++ jsonStringifyFields fs ++ "\x7d"

def jsonStringifyList : List Json → String
  | [] => ""
  | [j] => jsonStringify j
  | j :: rest => jsonStringify j ++ "," ++ jsonStringifyList rest

def jsonStringifyFields : List (String × Json) → String
  | [] => ""
  | [(k, v)] => "\"" ++ jsonEscapeStr k ++ "\":" ++ jsonStringify v
  | (k, v) :: rest =>
    "\"" ++ jsonEscapeStr k ++ "\":" ++ jsonStringify v ++ "," ++ jsonStringifyFields rest
end

/-- Key union over all object-like elements, first-seen order (a JS `Set`
preserves insertion order), as in source `convertArrayToMarkdownTable`. -/
def collectKeys (array : List Json) : List String :=
  array.foldl
    (fun acc item =>
      if item.isObjLike then
        (jsKeys item).foldl (fun acc2 k => if acc2.contains k then acc2 else acc2 ++ [k]) acc
      else acc)
    []

/-- One table cell: empty for a missing key or a null value, compact JSON
for nested object/array values, `String(value)` otherwise; pipes escaped. -/
def tableCellValue (item : Json) (key : String) : String :=
  if item.isObjLike && jsHasKey item key then
    match jsGetKey item key with
    | some Json.null => ""
    | some v => if v.isObjLike then escapePipes (jsonStringify v) else escapePipes (jsStringOf v)
    | none => ""
  else ""

def tableRowLine (keys : List String) (item : Json) : String :=
  "| " ++ String.intercalate " | " (keys.map (tableCellValue item)) ++ " |\n"

def arrayTableHeader (keys : List String) : String :=
  "| " ++ String.intercalate " | " keys ++ " |\n" ++
  "| " ++ String.intercalate " | " (keys.map fun _ => "---") ++ " |\n"

/-- Insertion-ordered `Map` of `String(item)` counts. -/
def itemCounts (array : List Json) : List (String × Nat) :=
  array.foldl
    (fun acc item =>
      let k := jsStringOf item
      if acc.any fun p => p.1 = k then
        acc.map fun p => if p.1 = k then (p.1, p.2 + 1) else p
      else acc ++ [(k, 1)])
    []

/-- `sort(([,a],[,b]) => b - a)`: stable descending sort by count. -/
def sortCountsDesc (l : List (String × Nat)) : List (String × Nat) :=
  l.mergeSort fun a b => decide (b.2 ≤ a.2)

/-- The non-object branch of `convertArrayToMarkdownTable`. -/
def primitiveArrayBlock (array : List Json) : String :=
  let base := "**Array List** (" ++ toString array.length ++ " items)\n\n"
  if array.length > 20 then
    base ++ "**Item counts:**\n" ++
      String.join ((sortCountsDesc (itemCounts array)).map fun p =>
        "- `" ++ p.1 ++ "`: " ++ toString p.2 ++ " times\n")
  else
    base ++
      String.intercalate "\n" (array.enum.map fun p => toString (p.1 + 1) ++ ". " ++ jsStringOf p.2)
      ++ "\n"

/-- Source `convertArrayToMarkdownTable`.  The table branch is chosen by the
first element only (`typeof array[0] === 'object' && array[0] !== null`). -/
def convertArrayToMarkdownTable (array : List Json) : String :=
  match array with
  | [] => "**Empty array**\n"
  | a0 :: _ =>
    if a0.isObjLike then
      let keys := collectKeys array
      if keys.isEmpty then "**Array of empty objects**\n"
      else
        "**Array Table** (" ++ toString array.length ++ " items)\n\n" ++
        arrayTableHeader keys ++
        String.join (array.map (tableRowLine keys))
    else primitiveArrayBlock array

def propTypeTag : Json → String
  | .arr l => "Array[" ++ toString l.length ++ "]"
  | v => jsTypeof v

/-- The `Value Preview` column of the property-summary table. -/
def propPreview : Json → String
  | .null => "null"
  | .arr l => "[" ++ toString l.length ++ " items]"
  | .obj fs =>
    "\x7b" ++ String.intercalate ", " ((fs.map fun p => p.1).take 3) ++
      (if fs.length > 3 then "..." else "") ++ "\x7d"
  | v =>
    (jsStringOf v).take 50 ++ (if (jsStringOf v).length > 50 then "..." else "")

def objectSummaryTable (fields : List (String × Json)) : String :=
  "## Property Summary\n\n" ++
  "| Property | Type | Value Preview |\n" ++
  "| --- | --- | --- |\n" ++
  String.join (fields.map fun p =>
    "| " ++ p.1 ++ " | " ++ propTypeTag p.2 ++ " | " ++ escapePipes (propPreview p.2) ++ " |\n") ++
  "\n## Detailed Content\n\n"

mutual
/-- Source `convertObjectToMarkdown` (default `level = 2`): optional summary
table for wide objects, then one heading + rendering per property, recursing
with `level + 1` into nested objects. -/
def convertObjectToMarkdown (fields : List (String × Json)) (level : Nat) : String :=
  (if fields.length > 10 then objectSummaryTable fields else "") ++ objectEntries fields level

def objectEntries : List (String × Json) → Nat → String
  | [], _ => ""
  | (key, value) :: rest, level =>
    repeatChar '#' (min level 6) ++ " " ++ key ++ "\n\n" ++
    objectValueBlock value level ++ objectEntries rest level

def objectValueBlock : Json → Nat → String
  | .null, _ => "*null*\n\n"
  | .arr l, _ => convertArrayToMarkdownTable l ++ "\n"
  | .obj fs, level =>
    if fs.isEmpty then "*Empty object*\n\n" else convertObjectToMarkdown fs (level + 1)
  | .str s, _ => if s.length > 100 then "```\n" ++ s ++ "\n```\n\n" else s ++ "\n\n"
  | v, _ => jsStringOf v ++ "\n\n"
end

/-- Source `convertJsonToMarkdown`; `JSON.parse` is an external builtin and
is passed as a (pure) function parameter. -/
def convertJsonToMarkdown (parse : String → Except String Json) (jsonContent : String) : String :=
  match parse jsonContent with
  | .ok data =>
    "# JSON Data\n\n" ++
    (match data with
     | .arr l =>
       "**Type:** Array with " ++ toString l.length ++ " items\n\n" ++
       convertArrayToMarkdownTable l
     | .obj fs =>
       "**Type:** Object with " ++ toString fs.length ++ " properties\n\n" ++
       convertObjectToMarkdown fs 2
     | v =>
       "**Type:** " ++ jsTypeof v ++ "\n\n**Value:**\n```json\n" ++ jsonStringify v ++ "\n```\n")
  | .error msg =>
    "# Invalid JSON Content\n\n**Error:** " ++ msg ++
    "\n\n**Raw Content:**\n```json\n" ++ jsonContent ++ "\n```\n"

/-! ### Plain-text structural inference engine -/

/-- `line === line.toUpperCase()` (ASCII fragment). -/
def upperFixed (s : String) : Bool := s.data.all fun c => c.toUpper = c

/-- `/^[A-Z\s\d\-\.:]+$/` : non-empty, only upper-case letters, whitespace,
digits, `-`, `.`, `:`. -/
def headerCharsetOk (s : String) : Bool :=
  !s.data.isEmpty &&
  s.data.all fun c => isUpperChar c || isWsChar c || isDigitChar c || c = '-' || c = '.' || c = ':'

/-- `/^<kw>\s+/i` : case-insensitive keyword prefix followed by at least one
whitespace character. -/
def startsWithKeywordCI (line kw : String) : Bool :=
  listIsPref (jsToLower kw).data (jsToLower line).data &&
  (match line.data.drop kw.length with
   | c :: _ => isWsChar c
   | [] => false)

/-- Underline convention: the next line is non-empty and consists solely of
`=` or solely of `-`. -/
def isUnderline (next : String) : Bool :=
  !next.data.isEmpty &&
  (next.data.all (fun c => c = '=') || next.data.all (fun c => c = '-'))

/-- `/^\d+\.\s+[A-Z]/` : digits, a dot, whitespace, then an upper-case
letter. -/
def numberedCapsRule (line : String) : Bool :=
  let ds := line.data.takeWhile isDigitChar
  !ds.isEmpty &&
  (match line.data.drop ds.length with
   | c :: rest =>
     c = '.' &&
     (let ws := rest.takeWhile isWsChar
      !ws.isEmpty &&
      (match rest.drop ws.length with
       | d :: _ => isUpperChar d
       | [] => false))
   | [] => false)

def headerKeywords : List String :=
  ["Chapter", "Section", "Part", "Article", "Introduction", "Conclusion",
   "Summary", "Overview", "Background"]

/-- Source `isHeader`. -/
def isHeader (line nextLine : String) : Bool :=
  (line.length > 3 && upperFixed line && headerCharsetOk line) ||
  isUnderline nextLine ||
  (numberedCapsRule line && upperFixed line) ||
  headerKeywords.any (startsWithKeywordCI line)

/-- `index === 0 || lines.slice(0, index).every(l => !l.trim())`: the line
is the first non-blank line of the document. -/
def isFirstNonBlank (index : Nat) (lines : List String) : Bool :=
  index = 0 || (lines.take index).all fun l => (jsTrim l).isEmpty

/-- `line.length < 30 && line === line.toUpperCase()`. -/
def shortCaps (line : String) : Bool := line.length < 30 && upperFixed line

/-- `/^(Chapter|Part)\s+/i`. -/
def chapterPartStart (line : String) : Bool :=
  startsWithKeywordCI line "Chapter" || startsWithKeywordCI line "Part"

/-- Source `getHeaderLevel`.  Note the order of the rules: the
short-all-caps rule (level 2) is tested before the `Chapter`/`Part` rule
(level 1). -/
def getHeaderLevel (line : String) (index : Nat) (lines : List String) : Nat :=
  if isFirstNonBlank index lines then 1
  else if shortCaps line then 2
  else if chapterPartStart line then 1
  else if startsWithKeywordCI line "Section" then 2
  else 3

/-- At least one whitespace character next (`\s+` after a marker). -/
def wsAfter (l : List Char) : Bool :=
  match l with
  | c :: _ => isWsChar c
  | [] => false

/-- `/^[ivxlcdm]+\.\s+/i`. -/
def isRomanChar (c : Char) : Bool :=
  let d := c.toLower
  d = 'i' || d = 'v' || d = 'x' || d = 'l' || d = 'c' || d = 'd' || d = 'm'

/-- Source `isList`. -/
def isList (line : String) : Bool :=
  (match line.data with
   | c :: rest => (c = '-' || c = '*' || c = '•') && wsAfter rest
   | [] => false) ||
  (let ds := line.data.takeWhile isDigitChar
   !ds.isEmpty &&
   (match line.data.drop ds.length with
    | c :: rest => c = '.' && wsAfter rest
    | [] => false)) ||
  (match line.data with
   | c :: d :: rest => isAlphaChar c && d = '.' && wsAfter rest
   | _ => false) ||
  (let rs := line.data.takeWhile isRomanChar
   !rs.isEmpty &&
   (match line.data.drop rs.length with
    | c :: rest => c = '.' && wsAfter rest
    | [] => false))

/-- Source `convertToMarkdownList`. -/
def convertToMarkdownList (line : String) : String :=
  match line.data with
  | c :: rest =>
    if (c = '-' || c = '*') && wsAfter rest then line
    else if c = '•' && wsAfter rest then "- " ++ ⟨rest.dropWhile isWsChar⟩
    else
      let ds := line.data.takeWhile isDigitChar
      if !ds.isEmpty &&
         (match line.data.drop ds.length with
          | d :: rest2 => d = '.' && wsAfter rest2
          | [] => false) then line
      else
        -- `'- ' + line.replace(/^[a-zA-Z•\-*]\.\s*/, '')`
        let stripped : List Char :=
          match line.data with
          | a :: b :: t =>
            if (isAlphaChar a || a = '•' || a = '-' || a = '*') && b = '.' then t.dropWhile isWsChar
            else line.data
          | _ => line.data
        "- " ++ ⟨stripped⟩
  | [] => "- " ++ line

/-- `\b<kw>\b` whole-word occurrence scan. -/
def hasWholeWordAux (kw : List Char) : Option Char → List Char → Bool
  | prev, l =>
    ((match prev with
      | some p => !isWordChar p
      | none => true) &&
     listIsPref kw l &&
     !(match l.drop kw.length with
       | c :: _ => isWordChar c
       | [] => false)) ||
    (match l with
     | [] => false
     | c :: t => hasWholeWordAux kw (some c) t)

def hasWholeWord (line kw : String) : Bool := hasWholeWordAux kw.data none line.data

def codeKeywords : List String :=
  ["function", "var", "let", "const", "if", "else", "for", "while", "class",
   "def", "import", "export"]

/-- Source `isCodeLine` (applied to the original, untrimmed line). -/
def isCodeLine (line : String) : Bool :=
  listIsPref "    ".data line.data ||
  ((line.data.any fun c => c = lbraceChar || c = rbraceChar || c = '(' || c = ')' || c = ';') &&
   !(match (jsTrim line).data with
     | c :: _ => isUpperChar c
     | [] => false)) ||
  codeKeywords.any (hasWholeWord line)

/-- Source `isQuote`. -/
def isQuote (line : String) : Bool :=
  (match line.data with
   | c :: rest => c = '>' && wsAfter rest
   | [] => false) ||
  (match line.data with
   | c :: _ :: _ =>
     (c = quoteChar || c = apostChar) &&
     (match line.data.getLast? with
      | some d => d = quoteChar || d = apostChar
      | none => false)
   | _ => false) ||
  (listIsPref "Quote:".data line.data ||
   (match line.data with
    | c :: _ => c = quoteChar || c = apostChar
    | [] => false))

/-- `line.replace(/^>\s*/, '')`. -/
def stripQuoteMarker (line : String) : String :=
  match line.data with
  | c :: rest => if c = '>' then ⟨rest.dropWhile isWsChar⟩ else line
  | [] => line

/-- `replace(/\r\n/g, '\n').replace(/\r/g, '\n')`. -/
def normNlList : List Char → List Char
  | [] => []
  | '\r' :: '\n' :: t => '\n' :: normNlList t
  | '\r' :: t => '\n' :: normNlList t
  | c :: t => c :: normNlList t

/-- A URL match at the current position: a maximal non-whitespace run that
starts with `http://` or `https://` and has at least one character after the
scheme (`https?:\/\/[^\s]+`). -/
def urlMatch (l : List Char) : Option (List Char × List Char) :=
  let run := l.takeWhile fun c => !isWsChar c
  let rest := l.drop run.length
  if listIsPref "https://".data l && run.length ≥ 9 then some (run, rest)
  else if listIsPref "http://".data l && run.length ≥ 8 then some (run, rest)
  else none

/-- `replace(/(^|[\s])((https?:\/\/[^\s]+))([\s]|$)/g, '$1[$3]($3)$4')`.
The `$4` whitespace is part of the match, so two URLs separated by a single
space are not both rewritten — faithful to the source regex. -/
def linkifyUrlsGo : Nat → Bool → List Char → List Char
  | 0, _, l => l
  | fuel + 1, atStart, l =>
    match l with
    | [] => []
    | c :: t =>
      let tryHere : Option (List Char × List Char × List Char) :=
        if atStart then
          match urlMatch l with
          | some (url, rest) => some ([], url, rest)
          | none =>
            if isWsChar c then
              match urlMatch t with
              | some (url, rest) => some ([c], url, rest)
              | none => none
            else none
        else if isWsChar c then
          match urlMatch t with
          | some (url, rest) => some ([c], url, rest)
          | none => none
        else none
      match tryHere with
      | some (b, url, rest) =>
        let consumed : List Char × List Char :=
          match rest with
          | r :: rr => if isWsChar r then ([r], rr) else ([], rest)
          | [] => ([], [])
        b ++ ('[' :: url) ++ (']' :: '(' :: url) ++ (')' :: consumed.1) ++
          linkifyUrlsGo fuel false consumed.2
      | none => c :: linkifyUrlsGo fuel false t

def linkifyUrls (l : List Char) : List Char := linkifyUrlsGo (l.length + 1) true l

def isEmailLocalChar (c : Char) : Bool :=
  isAlnumChar c || c = '.' || c = '_' || c = '%' || c = '+' || c = '-'

def isEmailDomainChar (c : Char) : Bool := isAlnumChar c || c = '.' || c = '-'

/-- An email match at the current position:
`[a-zA-Z0-9._%+-]+@[a-zA-Z0-9.-]+\.[a-zA-Z]{2,}` followed by whitespace or
the end.  The match must consume the whole maximal domain-character run,
whose trailing letter run (≥ 2 letters) must be preceded by a dot with a
non-empty part before it. -/
def emailMatch (l : List Char) : Option (List Char × List Char) :=
  let localPart := l.takeWhile isEmailLocalChar
  if localPart.isEmpty then none
  else
    match l.drop localPart.length with
    | a :: t2 =>
      if a = '@' then
        let dom := t2.takeWhile isEmailDomainChar
        let rest := t2.drop dom.length
        let boundaryOk :=
          match rest with
          | [] => true
          | r :: _ => isWsChar r
        if dom.isEmpty || !boundaryOk then none
        else
          let revd := dom.reverse
          let lrun := revd.takeWhile isAlphaChar
          if lrun.length < 2 then none
          else
            match revd.drop lrun.length with
            | dot :: arest =>
              if dot = '.' && !arest.isEmpty then some (localPart ++ a :: dom, rest)
              else none
            | [] => none
      else none
    | [] => none

/-- `replace(/(^|[\s])([a-zA-Z0-9._%+-]+@[a-zA-Z0-9.-]+\.[a-zA-Z]{2,})([\s]|$)/g,
'$1[$2](mailto:$2)$3')`. -/
def linkifyEmailsGo : Nat → Bool → List Char → List Char
  | 0, _, l => l
  | fuel + 1, atStart, l =>
    match l with
    | [] => []
    | c :: t =>
      let tryHere : Option (List Char × List Char × List Char) :=
        if atStart then
          match emailMatch l with
          | some (em, rest) => some ([], em, rest)
          | none =>
            if isWsChar c then
              match emailMatch t with
              | some (em, rest) => some ([c], em, rest)
              | none => none
            else none
        else if isWsChar c then
          match emailMatch t with
          | some (em, rest) => some ([c], em, rest)
          | none => none
        else none
      match tryHere with
      | some (b, em, rest) =>
        let consumed : List Char × List Char :=
          match rest with
          | r :: rr => if isWsChar r then ([r], rr) else ([], rest)
          | [] => ([], [])
        b ++ ('[' :: em) ++ (']' :: '(' :: "mailto:".data) ++ em ++ (')' :: consumed.1) ++
          linkifyEmailsGo fuel false consumed.2
      | none => c :: linkifyEmailsGo fuel false t

def linkifyEmails (l : List Char) : List Char := linkifyEmailsGo (l.length + 1) true l

/-- One line of the plain-text loop: blank lines pass through, then the
ordered header / list / code / quote rules, else the trimmed line itself. -/
def plainTextLineOut (originalLine line nextLine : String) (index : Nat)
    (lines : List String) : String :=
  if line.isEmpty then ""
  else if isHeader line nextLine then
    repeatChar '#' (getHeaderLevel line index lines) ++ " " ++ line
  else if isList line then convertToMarkdownList line
  else if isCodeLine originalLine then "    " ++ line
  else if isQuote line then "> " ++ stripQuoteMarker line
  else line

/-- Source `convertPlainTextToMarkdown`. -/
def convertPlainTextToMarkdown (textContent : String) : String :=
  let lines := splitNl ⟨normNlList textContent.data⟩
  let processedLines := lines.enum.map fun p =>
    let originalLine := p.2
    let line := jsTrim originalLine
    let nextLine :=
      match lines.get? (p.1 + 1) with
      | some nl => jsTrim nl
      | none => ""
    plainTextLineOut originalLine line nextLine p.1 lines
  let joined := String.intercalate "\n" processedLines
  let collapsed := collapseNewlines joined.data
  jsTrim ⟨linkifyEmails (linkifyUrls collapsed)⟩

/-! ### Word-processing (DOCX) extractor

The XML DOM walked by the source is modelled structurally: a paragraph
carries its optional `pPr` (with the `pStyle` attribute value and the
optional `outlineLvl` element), and its runs; a run carries its optional
`b`/`i` property elements (present ↦ the optional `w:val` attribute) and its
text nodes.  `pStyle` element-absent, attribute-absent and attribute-empty
all behave identically in the source (`if (val)`), so they share `none`;
for `outlineLvl` element presence matters and is kept separate. -/

structure DocxRun where
  bProp : Option (Option String) := none
  iProp : Option (Option String) := none
  texts : List String := []

structure DocxPPr where
  styleVal : Option String := none
  outline : Option (Option String) := none

structure DocxParagraph where
  pPr : Option DocxPPr := none
  runs : List DocxRun := []

/-- `/[Hh]eading(\d+)/` searched anywhere in the style name; captures the
maximal digit run after the first occurrence. -/
def headingStyleNum : List Char → Option Nat
  | [] => none
  | c :: t =>
    if (c = 'H' || c = 'h') && listIsPref "eading".data t then
      let ds := (t.drop 6).takeWhile isDigitChar
      if ds.isEmpty then headingStyleNum t else some (digitsVal ds)
    else headingStyleNum t

/-- The `pStyle` branch of `getHeadingLevel`: `some r` when the style check
returns (`r` the returned level), `none` when control falls through to the
outline-level check. -/
def styleLevelResult (sv : Option String) : Option (Option Int) :=
  match sv with
  | some v =>
    if !v.isEmpty then
      match headingStyleNum v.data with
      | some n => some (some (n : Int))
      | none =>
        if jsIncludes v "Title" then some (some 1)
        else if jsIncludes v "Subtitle" then some (some 2)
        else none
    else none
  | none => none

/-- The `outlineLvl` branch of `getHeadingLevel`:
`Math.min(parseInt(attr || '0') + 1, 6)`, `none` modelling a `NaN` result. -/
def outlineLevelOf (outline : Option (Option String)) : Option Int :=
  match outline with
  | some attr =>
    let attrStr :=
      match attr with
      | some a => if a.isEmpty then "0" else a
      | none => "0"
    match jsParseInt attrStr with
    | some k => some (min (k + 1) 6)
    | none => none
  | none => some 0

/-- Source `getHeadingLevel`.  The result is a JS number; `none` models
`NaN` (`parseInt` of a non-numeric outline attribute, propagated through
`Math.min`).  Note the `Heading<N>` style path returns `N` unclamped. -/
def getHeadingLevel (p : DocxParagraph) : Option Int :=
  match p.pPr with
  | none => some 0
  | some pr =>
    match styleLevelResult pr.styleVal with
    | some r => r
    | none => outlineLevelOf pr.outline

/-- `b`/`i` property is on when the element is present and its `w:val`
attribute is absent or different from `"0"`
(source `getSimpleRunFormatting`). -/
def runFlagOn (prop : Option (Option String)) : Bool :=
  match prop with
  | some attr =>
    (match attr with
     | some v => v ≠ "0"
     | none => true)
  | none => false

/-- Text of one run: each non-empty text node, wrapped in `**`/`*` when the
run is bold/italic and the node text is not pure whitespace. -/
def runTextsOut (bold italic : Bool) (texts : List String) : String :=
  String.join (texts.map fun text =>
    if text.isEmpty then ""
    else if bold && !(jsTrim text).isEmpty then "**" ++ text ++ "**"
    else if italic && !(jsTrim text).isEmpty then "*" ++ text ++ "*"
    else text)

/-- Run concatenation with the inter-run space rule: after a run, if the
accumulated text ends in a non-whitespace character and the next run's first
text node is non-empty and does not start with a space, one space is
inserted. -/
def extractRunsText : List DocxRun → String → String
  | [], acc => acc
  | r :: rest, acc =>
    let acc2 := acc ++ runTextsOut (runFlagOn r.bProp) (runFlagOn r.iProp) r.texts
    let acc3 :=
      match acc2.data.getLast? with
      | some lastChar =>
        if !isWsChar lastChar then
          match rest.head? with
          | some nr =>
            match nr.texts.head? with
            | some ntext =>
              if !ntext.isEmpty && !listIsPref [' '] ntext.data then acc2 ++ " " else acc2
            | none => acc2
          | none => acc2
        else acc2
      | none => acc2
    extractRunsText rest acc3

/-- `replace(/\s+/g, ' ')`: collapse every whitespace run to one space. -/
def collapseWsGo : Bool → List Char → List Char
  | pending, [] => if pending then [' '] else []
  | pending, c :: t =>
    if isWsChar c then collapseWsGo true t
    else (if pending then [' '] else []) ++ c :: collapseWsGo false t

def collapseWs (l : List Char) : List Char := collapseWsGo false l

/-- Source `extractParagraphText`: run extraction, whitespace collapsing and
trimming, then `'#'.repeat(headingLevel)` prefixing when the level is
positive and the text non-empty (`NaN` and non-positive levels leave the
text unchanged). -/
def extractParagraphText (p : DocxParagraph) : String :=
  let headingLevel := getHeadingLevel p
  let fullText := extractRunsText p.runs ""
  let cleaned := jsTrim ⟨collapseWs fullText.data⟩
  match headingLevel with
  | some n =>
    if 0 < n && !cleaned.isEmpty then repeatChar '#' n.toNat ++ " " ++ cleaned else cleaned
  | none => cleaned

/-- Source `readDocxFile` after the container has been unzipped and parsed:
paragraphs with non-blank text joined with blank lines, the whole trimmed,
with a placeholder when nothing is readable.  (Zip/XML extraction failures
are IO-level and outside the model.) -/
def readDocxFile (paragraphs : List DocxParagraph) : String :=
  let md := paragraphs.foldl
    (fun acc p =>
      let t := extractParagraphText p
      if (jsTrim t).isEmpty then acc else acc ++ t ++ "\n\n")
    ""
  let trimmed := jsTrim md
  if trimmed.isEmpty then "No readable content found in DOCX file" else trimmed

/-! ### Format dispatcher and batch conversion -/

/-- `/<([^>]+)>/g` rewrite of source `convertXmlToMarkdown` (the replacement
reconstructs each tag unchanged). -/
def normalizeXmlTagsGo : Nat → List Char → List Char
  | 0, l => l
  | fuel + 1, l =>
    match l with
    | [] => []
    | c :: t =>
      if c = '<' then
        let inner := t.takeWhile fun x => x ≠ '>'
        match t.drop inner.length with
        | _ :: u =>
          if inner.isEmpty then c :: normalizeXmlTagsGo fuel t
          else '<' :: (inner ++ '>' :: normalizeXmlTagsGo fuel u)
        | [] => c :: normalizeXmlTagsGo fuel t
      else c :: normalizeXmlTagsGo fuel t

/-- Source `convertXmlToMarkdown`; the `turndown` transform is the `td`
parameter (total, so the `catch` branch is unreachable in the model). -/
def convertXmlToMarkdown (td : String → String) (xmlContent : String) : String :=
  "# XML Content\n\n" ++ td ⟨normalizeXmlTagsGo (xmlContent.data.length + 1) xmlContent.data⟩

/-- Source `convertContentToMarkdown`: throws (models as `.error`) on a
DOCX reaching it, dispatches on declared type / extension, and finishes with
`cleanupMarkdownContent`.  `td` is the turndown transform and `parse` is
`JSON.parse`, both external builtins passed as parameters. -/
def convertContentToMarkdown (td : String → String) (parse : String → Except String Json)
    (fileName fileType content : String) : Except String String :=
  let ft := jsToLower fileType
  let fn := jsToLower fileName
  if jsEndsWith fn ".docx" || jsIncludes ft "wordprocessingml" then
    .error "DOCX file should be processed by readDocxFile, not convertContentToMarkdown"
  else
    let processedContent :=
      if jsIncludes ft "html" || jsEndsWith fn ".html" || jsEndsWith fn ".htm" then td content
      else if jsIncludes ft "json" || jsEndsWith fn ".json" then
        convertJsonToMarkdown parse content
      else if jsIncludes ft "csv" || jsEndsWith fn ".csv" then convertCsvToMarkdown content
      else if jsIncludes ft "xml" || jsEndsWith fn ".xml" then convertXmlToMarkdown td content
      else convertPlainTextToMarkdown content
    .ok (cleanupMarkdownContent processedContent)

/-- One input of the batch entry point.  `docx` covers files dispatched by
the DOCX check of `convertFilesToMarkdown` (name ends in `.docx` or type
includes `wordprocessingml`), carrying the parsed paragraphs of the
unzipped document part; `text` carries the raw text read for every other
file. -/
inductive InputFile where
  | docx (name : String) (paras : List DocxParagraph) : InputFile
  | text (name ftype content : String) : InputFile

/-- The outcome of the `try` block of `convertFilesToMarkdown` for one file:
DOCX files return `readDocxFile` output directly (bypassing
`convertContentToMarkdown` and hence the cleanup normalizer), all other
files go through `convertContentToMarkdown`. -/
def fileConversionResult (td : String → String) (parse : String → Except String Json) :
    InputFile → Except String String
  | .docx _ paras => .ok (readDocxFile paras)
  | .text name ftype content => convertContentToMarkdown td parse name ftype content

structure MarkdownFile where
  name : String
  content : String
deriving DecidableEq

/-- A batch input, abstracted to its name and the outcome of its per-file
read-and-convert step (which is asynchronous IO in the source; an `.error`
is a thrown exception with its message). -/
structure BatchFile where
  name : String
  outcome : Except String String

/-- `file.name.replace(/\.[^/.]+$/, '')`: strip a final dot-extension
(non-empty, containing no `.` or `/`). -/
def stripExtension (name : String) : String :=
  let r := name.data.reverse
  let seg := r.takeWhile fun c => !(c = '.' || c = '/')
  match r.drop seg.length with
  | d :: restr => if d = '.' && !seg.isEmpty then ⟨restr.reverse⟩ else name
  | [] => name

/-- The document pushed for one batch file: the converted content under
`<base>.md` on success, the synthesized `ERROR_<name>.md` document on a
caught per-file failure (source lines of the `catch` block). -/
def renderBatchFile (f : BatchFile) : MarkdownFile :=
  match f.outcome with
  | .ok c => ⟨stripExtension f.name ++ ".md", c⟩
  | .error e =>
    ⟨"ERROR_" ++ f.name ++ ".md",
     "# Conversion Error\n\n**File:** " ++ f.name ++ "\n**Error:** " ++ e ++
     "\n\n*This file could not be converted to markdown.*"⟩

/-- The sequential batch loop: documents pushed in order, and the list of
`onProgress` arguments (`i` before file `i`, `files.length` after the
loop). -/
def convertFilesGo (i : Nat) : List BatchFile → List MarkdownFile × List Nat
  | [] => ([], [i])
  | f :: rest =>
    let r := convertFilesGo (i + 1) rest
    (renderBatchFile f :: r.1, i :: r.2)

/-- Source `convertFilesToMarkdown`: first component the returned documents,
second the progress-callback trace. -/
def convertFilesToMarkdown (files : List BatchFile) : List MarkdownFile × List Nat :=
  convertFilesGo 0 files

/-! ### Support definitions for the verification statements -/

/-- Worded from the specification for the refinement conjunct of the array
table claim: "the union of all elements' keys (first-seen order across
elements)". -/
def specFirstSeenKeyUnion (array : List Json) : List String :=
  ((array.map jsKeys).flatten).foldl (fun acc k => if acc.contains k then acc else acc ++ [k]) []

/-- Exactly the `Heading<N>` style sub-path of `getHeadingLevel`: the style
attribute is present, truthy, and matches `/[Hh]eading(\d+)/` with capture
`N`. -/
def styleHeadingNum (p : DocxParagraph) : Option Nat :=
  match p.pPr with
  | some pr =>
    (match pr.styleVal with
     | some v => if !v.isEmpty then headingStyleNum v.data else none
     | none => none)
  | none => none

/-- The spec's array-table example: 3 objects with key sets `{a,b}`, `{a,c}`,
`{a,b}`. -/
def exampleArray3 : List Json :=
  [Json.obj [("a", Json.num 1), ("b", Json.num 2)],
   Json.obj [("a", Json.num 3), ("c", Json.num 4)],
   Json.obj [("a", Json.num 5), ("b", Json.num 6)]]

/-- A paragraph whose style is `Heading7`, with one run of text `Intro`. -/
def exampleHeading7Para : DocxParagraph :=
  { pPr := some { styleVal := some "Heading7" }, runs := [{ texts := ["Intro"] }] }

/-- A paragraph with outline level attribute `"4"` and no style. -/
def exampleOutlinePara : DocxParagraph :=
  { pPr := some { outline := some (some "4") }, runs := [{ texts := ["T"] }] }

/-! ## Theorems -/

/-! ### Generic lemmas about trimming -/

theorem dropWhile_head_false (p : Char → Bool) (l : List Char) (c : Char)
    (h : (l.dropWhile p).head? = some c) : p c = false := by
  have hm := List.head?_dropWhile_not p l
  rw [h] at hm
  exact hm

theorem dropWhile_eq_self_of_head_false (p : Char → Bool) (l : List Char)
    (h : ∀ c, l.head? = some c → p c = false) : l.dropWhile p = l := by
  cases l with
  | nil => rfl
  | cons a t =>
    have ha := h a rfl
    simp [List.dropWhile, ha]

theorem trimList_head_false (l : List Char) (c : Char)
    (h : (trimList l).head? = some c) : isWsChar c = false := by
  unfold trimList at h
  obtain ⟨u, hu⟩ := List.dropWhile_suffix (l := (l.dropWhile isWsChar).reverse) isWsChar
  have hd : l.dropWhile isWsChar =
      ((l.dropWhile isWsChar).reverse.dropWhile isWsChar).reverse ++ u.reverse := by
    have := congrArg List.reverse hu
    simpa [List.reverse_append] using this.symm
  have hh : (l.dropWhile isWsChar).head? = some c := by
    rw [hd, List.head?_append, h]
    rfl
  exact dropWhile_head_false isWsChar l c hh

theorem trimList_getLast_false (l : List Char) (c : Char)
    (h : (trimList l).getLast? = some c) : isWsChar c = false := by
  have e : (trimList l).reverse = (l.dropWhile isWsChar).reverse.dropWhile isWsChar := by
    simp [trimList]
  rw [List.getLast?_eq_head?_reverse, e] at h
  exact dropWhile_head_false isWsChar _ c h

theorem trimList_idem (l : List Char) : trimList (trimList l) = trimList l := by
  have h1 : (trimList l).dropWhile isWsChar = trimList l :=
    dropWhile_eq_self_of_head_false _ _ (fun c hc => trimList_head_false l c hc)
  have h2 : (trimList l).reverse.dropWhile isWsChar = (trimList l).reverse := by
    apply dropWhile_eq_self_of_head_false
    intro c hc
    rw [List.head?_reverse] at hc
    exact trimList_getLast_false l c hc
  show ((((trimList l).dropWhile isWsChar).reverse).dropWhile isWsChar).reverse = trimList l
  rw [h1, h2, List.reverse_reverse]

theorem jsTrim_data (s : String) : (jsTrim s).data = trimList s.data := rfl

theorem jsTrim_idem (s : String) : jsTrim (jsTrim s) = jsTrim s := by
  show (⟨trimList (jsTrim s).data⟩ : String) = (⟨trimList s.data⟩ : String)
  rw [jsTrim_data, trimList_idem]

theorem endsWithNl_jsTrim (s : String) : endsWithNl (jsTrim s) = false := by
  unfold endsWithNl
  cases h : (jsTrim s).data.getLast? with
  | none => rfl
  | some c =>
    have hc : isWsChar c = false := trimList_getLast_false s.data c (by rw [← jsTrim_data]; exact h)
    apply decide_eq_false
    intro heq
    have : c = '\n' := by injection heq
    subst this
    exact absurd hc (by decide)

theorem jsEndsWith_nl (s : String) : jsEndsWith s "\n" = endsWithNl s := by
  unfold jsEndsWith endsWithNl
  rw [List.getLast?_eq_head?_reverse]
  cases h : s.data.reverse with
  | nil => rfl
  | cons a t =>
    show listIsPref ['\n'] (a :: t) = decide (some a = some '\n')
    by_cases ha : a = '\n'
    · subst ha; simp [listIsPref]
    · simp [listIsPref, ha, Ne.symm ha]

/-- The final two steps of the cleanup normalizer: the returned string is
empty, or is a non-empty trim-fixed string followed by exactly one
newline. -/
theorem trimAppend_shape (y : List Char) :
    (if (⟨trimList y⟩ : String).isEmpty then (⟨trimList y⟩ : String)
     else if jsEndsWith ⟨trimList y⟩ "\n" then (⟨trimList y⟩ : String)
     else (⟨trimList y⟩ : String) ++ "\n") = "" ∨
    (∃ b : String,
      (if (⟨trimList y⟩ : String).isEmpty then (⟨trimList y⟩ : String)
       else if jsEndsWith ⟨trimList y⟩ "\n" then (⟨trimList y⟩ : String)
       else (⟨trimList y⟩ : String) ++ "\n") = b ++ "\n" ∧
      jsTrim b = b ∧ b ≠ "" ∧ endsWithNl b = false) := by
  have hm : (⟨trimList y⟩ : String) = jsTrim ⟨y⟩ := rfl
  by_cases he : (⟨trimList y⟩ : String).isEmpty
  · left
    rw [if_pos he]
    exact (String.isEmpty_iff _).mp he
  · right
    have hnl : endsWithNl (⟨trimList y⟩ : String) = false := by
      rw [hm]; exact endsWithNl_jsTrim ⟨y⟩
    have hje : jsEndsWith (⟨trimList y⟩ : String) "\n" = false := by
      rw [hm, jsEndsWith_nl]; exact endsWithNl_jsTrim ⟨y⟩
    refine ⟨⟨trimList y⟩, ?_, ?_, ?_, hnl⟩
    · rw [if_neg he, if_neg (by rw [hje]; exact Bool.false_ne_true)]
    · rw [hm]; exact jsTrim_idem ⟨y⟩
    · intro hcon
      rw [hcon] at he
      exact he rfl

/-- `cleanupMarkdownContent` output shape: empty, or a trim-fixed non-empty
body plus exactly one trailing newline. -/
theorem cleanup_shape (x : String) :
    cleanupMarkdownContent x = "" ∨
    (∃ b : String, cleanupMarkdownContent x = b ++ "\n" ∧
      jsTrim b = b ∧ b ≠ "" ∧ endsWithNl b = false) :=
  trimAppend_shape _

/-! ### Lemmas about the CSV field parser -/

theorem parseCSVChars_props (n : Nat) : ∀ (inQ : Bool) (cur l : List Char), l.length ≤ n →
    1 ≤ (parseCSVChars inQ cur l).length ∧
    ∀ f ∈ parseCSVChars inQ cur l, ∃ x : List Char, f = (⟨trimList x⟩ : String) := by
  induction n with
  | zero =>
    intro inQ cur l hl
    have hl0 : l = [] := List.eq_nil_of_length_eq_zero (Nat.le_zero.mp hl)
    subst hl0
    refine ⟨by simp [parseCSVChars], ?_⟩
    intro f hf
    simp [parseCSVChars] at hf
    exact ⟨cur.reverse, hf⟩
  | succ n ih =>
    intro inQ cur l hl
    cases l with
    | nil =>
      refine ⟨by simp [parseCSVChars], ?_⟩
      intro f hf
      simp [parseCSVChars] at hf
      exact ⟨cur.reverse, hf⟩
    | cons c rest =>
      cases rest with
      | nil =>
        simp only [parseCSVChars]
        by_cases hq : c = quoteChar
        · simp only [if_pos hq]
          exact ih (!inQ) cur [] (by simp)
        · simp only [if_neg hq]
          by_cases hcomma : (c = ',' && !inQ) = true
          · simp only [if_pos hcomma]
            have hrec := ih inQ [] [] (by simp)
            refine ⟨by simp, ?_⟩
            intro f hf
            rcases List.mem_cons.mp hf with h | h
            · exact ⟨cur.reverse, h⟩
            · exact hrec.2 f h
          · simp only [if_neg hcomma]
            exact ih inQ (c :: cur) [] (by simp)
      | cons d rest2 =>
        have hlen : (d :: rest2).length ≤ n := by
          simp only [List.length_cons] at hl ⊢
          omega
        have hlen2 : rest2.length ≤ n := by
          simp only [List.length_cons] at hlen
          omega
        simp only [parseCSVChars]
        by_cases hq : c = quoteChar
        · simp only [if_pos hq]
          cases inQ with
          | true =>
            simp only [if_pos rfl]
            by_cases hd : d = quoteChar
            · simp only [if_pos hd]
              exact ih true (quoteChar :: cur) rest2 hlen2
            · simp only [if_neg hd]
              exact ih false cur (d :: rest2) hlen
          | false =>
            simp only [Bool.false_eq_true, if_false]
            exact ih true cur (d :: rest2) hlen
        · simp only [if_neg hq]
          by_cases hcomma : (c = ',' && !inQ) = true
          · simp only [if_pos hcomma]
            have hrec := ih inQ [] (d :: rest2) hlen
            refine ⟨by simp, ?_⟩
            intro f hf
            rcases List.mem_cons.mp hf with h | h
            · exact ⟨cur.reverse, h⟩
            · exact hrec.2 f h
          · simp only [if_neg hcomma]
            exact ih inQ (c :: cur) (d :: rest2) hlen

theorem splitNlList_ne_nil (l : List Char) : splitNlList l ≠ [] := by
  induction l with
  | nil => simp [splitNlList]
  | cons c t ih =>
    by_cases hc : c = '\n'
    · simp [splitNlList, hc]
    · cases h : splitNlList t with
      | nil => exact absurd h ih
      | cons a r => simp [splitNlList, hc, h]

theorem csvPrefix_ne (r : String) : ("# CSV Data\n\n" ++ r) ≠ "# Empty CSV\n" := by
  intro h
  have h2 : ("# CSV Data\n\n").data ++ r.data = ("# Empty CSV\n").data := by
    rw [← String.data_append, h]
  have e1 : ("# CSV Data\n\n").data = '#' :: ' ' :: 'C' :: "SV Data\n\n".data := rfl
  have e2 : ("# Empty CSV\n").data = '#' :: ' ' :: 'E' :: "mpty CSV\n".data := rfl
  rw [e1, e2] at h2
  rw [List.cons_append, List.cons_append, List.cons_append] at h2
  injection h2 with h2a h2b
  injection h2b with h2c h2d
  injection h2d with h2e h2f
  exact absurd h2e (by decide)

/-! ### Claim theorems -/

/-- C4 (confirmed): the per-line CSV field parser trims every field, and on
the input `a,"b,c","d""e"` it returns exactly the three cells `a`, `b,c`,
`d"e` (a quote toggles the in-quotes flag, a doubled quote inside quotes is
an escaped literal quote, a comma outside quotes ends a field). -/
theorem C4_parseCSVLine :
    (∀ line f, f ∈ parseCSVLine line → jsTrim f = f) ∧
    parseCSVLine "a,\"b,c\",\"d\"\"e\"" = ["a", "b,c", "d\"e"] := by
  constructor
  · intro line f hf
    obtain ⟨x, hx⟩ := (parseCSVChars_props line.data.length false [] line.data le_rfl).2 f hf
    subst hx
    show (⟨trimList (trimList x)⟩ : String) = (⟨trimList x⟩ : String)
    rw [trimList_idem]
  · decide

/-- Witness for C4 at a concrete field: the middle field of the example line
is trim-fixed. -/
theorem C4_parseCSVLine_witness : jsTrim "b,c" = "b,c" :=
  C4_parseCSVLine.1 "a,\"b,c\",\"d\"\"e\"" "b,c" (by decide)

/-- C3 counterexample: the cleanup normalizer is *not* idempotent.  On
`"a\n# b"` one pass yields `"a\n\n# b\n"`, but the heading-spacing rule
`\n(#{1,6}\s) ↦ \n\n$1` fires again on the second pass, yielding
`"a\n\n\n# b\n"`. -/
theorem C3_counterexample :
    cleanupMarkdownContent (cleanupMarkdownContent "a\n# b") ≠ cleanupMarkdownContent "a\n# b" := by
  decide

/-- C3 (amended): a run of 5 newlines collapses to exactly 3 on one pass and
remains 3 on a second pass, but cleanup is not idempotent in general — a
heading preceded by non-blank content and a single newline gains one further
blank line on the second pass. -/
theorem C3_amended :
    cleanupMarkdownContent "a\n\n\n\n\nb" = "a\n\n\nb\n" ∧
    cleanupMarkdownContent "a\n\n\nb\n" = "a\n\n\nb\n" ∧
    cleanupMarkdownContent "a\n# b" = "a\n\n# b\n" ∧
    cleanupMarkdownContent (cleanupMarkdownContent "a\n# b") = "a\n\n\n# b\n" :=
  ⟨by decide, by decide, by decide, by decide⟩

/-- C10 (confirmed): the CSV, JSON and plain-text converters are pure
functions of their argument (and, for JSON, of the fixed external
`JSON.parse`): equal inputs give equal outputs, with no dependence on any
other state. -/
theorem C10_determinism :
    ∀ (parse : String → Except String Json) (s t : String), s = t →
      convertCsvToMarkdown s = convertCsvToMarkdown t ∧
      convertJsonToMarkdown parse s = convertJsonToMarkdown parse t ∧
      convertPlainTextToMarkdown s = convertPlainTextToMarkdown t := by
  intro parse s t h
  subst h
  exact ⟨rfl, rfl, rfl⟩

/-- Witness for C10 at concrete inputs. -/
theorem C10_determinism_witness :
    convertCsvToMarkdown "a,b" = convertCsvToMarkdown "a,b" ∧
    convertJsonToMarkdown (fun _ => Except.error "err") "a,b" =
      convertJsonToMarkdown (fun _ => Except.error "err") "a,b" ∧
    convertPlainTextToMarkdown "a,b" = convertPlainTextToMarkdown "a,b" :=
  C10_determinism (fun _ => Except.error "err") "a,b" "a,b" rfl

/-- C9 (confirmed): the CSV converter never returns the `# Empty CSV`
document: splitting on newlines always yields at least one line and the
per-line parser always returns at least one cell, and the empty input
renders a table whose single header cell is the placeholder `Column`. -/
theorem C9_csv_never_empty :
    (∀ s : String, convertCsvToMarkdown s ≠ "# Empty CSV\n") ∧
    (∀ s : String, 1 ≤ (parseCSVLine s).length) ∧
    convertCsvToMarkdown "" =
      "# CSV Data\n\n**Rows:** 1\n**Columns:** 1\n\n| Column |\n| --- |\n" := by
  refine ⟨?_, ?_, by decide⟩
  · intro s h
    have hlen : ¬((splitNl (jsTrim s)).length = 0) := by
      intro hzero
      rw [splitNl, List.length_map] at hzero
      exact splitNlList_ne_nil _ (List.length_eq_zero.mp hzero)
    simp only [convertCsvToMarkdown] at h
    rw [if_neg hlen] at h
    exact csvPrefix_ne _ h
  · intro s
    exact (parseCSVChars_props s.data.length false [] s.data le_rfl).1

/-! ### Numeric-column detection (C5) -/

theorem ratio_ge_70_iff (num tot : Nat) (htot : 0 < tot) :
    (Rat.divInt 7 10 ≤ Rat.divInt (num : Int) (tot : Int)) ↔ 7 * tot ≤ 10 * num := by
  rw [Rat.divInt_le_divInt (by norm_num) (by exact_mod_cast htot)]
  rw [mul_comm (num : Int) 10]
  constructor
  · intro h; exact_mod_cast h
  · intro h; exact_mod_cast h

/-- C5 (confirmed): a column is flagged numeric exactly when the ≤10-row
sample has a positive number of non-blank cells of which at least 70% parse
as numbers; detection only ever looks at the header and the first 10 data
rows; 7 of 10 numeric cells are flagged, 6 of 10 are not. -/
theorem C5_detectNumericColumns :
    (∀ (rows : List (List String)) (c : Nat),
       c ∈ detectNumericColumns rows ↔
         2 ≤ rows.length ∧ c < (rows.headD []).length ∧
         0 < csvTotalCount rows c ∧
         7 * csvTotalCount rows c ≤ 10 * csvNumericCount rows c) ∧
    (∀ rows : List (List String), detectNumericColumns rows = detectNumericColumns (rows.take 11)) ∧
    detectNumericColumns
      [["x"], ["1"], ["2"], ["3"], ["4"], ["5"], ["6"], ["7"], ["a"], ["b"], ["c"]] = [0] ∧
    detectNumericColumns
      [["x"], ["1"], ["2"], ["3"], ["4"], ["5"], ["6"], ["a"], ["a"], ["b"], ["c"]] = [] := by
  refine ⟨?_, ?_, by decide, by decide⟩
  · intro rows c
    unfold detectNumericColumns
    by_cases h2 : rows.length < 2
    · rw [if_pos h2]
      simp only [List.not_mem_nil, false_iff]
      intro hcon
      omega
    · rw [if_neg h2]
      rw [List.mem_filter, List.mem_range]
      constructor
      · rintro ⟨hc, hcond⟩
        obtain ⟨htot, hratio⟩ := of_decide_eq_true hcond
        exact ⟨by omega, hc, htot, (ratio_ge_70_iff _ _ htot).mp hratio⟩
      · rintro ⟨_, hc, htot, hint⟩
        exact ⟨hc, decide_eq_true ⟨htot, (ratio_ge_70_iff _ _ htot).mpr hint⟩⟩
  · intro rows
    cases rows with
    | nil => rfl
    | cons a t =>
      have htake : (a :: t).take 11 = a :: t.take 10 := rfl
      have hcells : ∀ c, csvSampledCells (a :: t.take 10) c = csvSampledCells (a :: t) c := by
        intro c
        unfold csvSampledCells
        simp [List.take_take]
      unfold detectNumericColumns
      rw [htake]
      by_cases h2 : (a :: t).length < 2
      · rw [if_pos h2, if_pos (by simp at h2 ⊢; omega)]
      · rw [if_neg h2, if_neg (by simp at h2 ⊢; omega)]
        simp only [List.headD_cons]
        apply List.filter_congr
        intro c _
        unfold csvTotalCount csvNumericCount
        rw [hcells c]

/-! ### Batch conversion (C1) -/

theorem convertFilesGo_eq (files : List BatchFile) : ∀ i,
    convertFilesGo i files = (files.map renderBatchFile, List.range' i (files.length + 1)) := by
  induction files with
  | nil => intro i; simp [convertFilesGo, List.range']
  | cons f rest ih =>
    intro i
    simp only [convertFilesGo, ih (i + 1), List.map_cons, List.length_cons]
    simp [List.range'_succ]

/-- C1 (confirmed): the batch converter returns exactly one document per
input file, in order — the converted content for a success, a synthesized
`ERROR_<name>.md` document carrying the file name and error message for a
per-file failure — and the progress callback receives `0, 1, …, N`.  The
loop body is total: one failing file never aborts the batch. -/
theorem C1_batch : ∀ files : List BatchFile,
    (convertFilesToMarkdown files).1 = files.map renderBatchFile ∧
    ((convertFilesToMarkdown files).1).length = files.length ∧
    (convertFilesToMarkdown files).2 = List.range (files.length + 1) ∧
    (∀ nm e, renderBatchFile ⟨nm, Except.error e⟩ =
      ⟨"ERROR_" ++ nm ++ ".md",
       "# Conversion Error\n\n**File:** " ++ nm ++ "\n**Error:** " ++ e ++
       "\n\n*This file could not be converted to markdown.*"⟩) ∧
    (∀ nm cont, renderBatchFile ⟨nm, Except.ok cont⟩ = ⟨stripExtension nm ++ ".md", cont⟩) := by
  intro files
  have h := convertFilesGo_eq files 0
  have h1 : (convertFilesToMarkdown files).1 = files.map renderBatchFile := by
    show (convertFilesGo 0 files).1 = _
    rw [h]
  refine ⟨h1, ?_, ?_, fun nm e => rfl, fun nm cont => rfl⟩
  · rw [h1, List.length_map]
  · show (convertFilesGo 0 files).2 = _
    rw [h, List.range_eq_range']

/-! ### The cleanup normalizer boundary (C2) -/

/-- C2 counterexample: a DOCX (word-processing) conversion bypasses the
cleanup normalizer — the batch dispatcher uses `readDocxFile` output
directly — so its document content does not end with a newline. -/
theorem C2_counterexample :
    fileConversionResult id (fun _ => Except.error "parse error")
      (InputFile.docx "doc.docx" [{ runs := [{ texts := ["Hello"] }] }]) = Except.ok "Hello" ∧
    endsWithNl "Hello" = false :=
  ⟨rfl, by decide⟩

theorem endsWithNl_trim_or_placeholder (md : String) :
    endsWithNl
      (if (jsTrim md).isEmpty then "No readable content found in DOCX file" else jsTrim md) =
      false := by
  by_cases h : (jsTrim md).isEmpty
  · rw [if_pos h]; decide
  · rw [if_neg h]; exact endsWithNl_jsTrim md

/-- C2 (amended): every successful `convertContentToMarkdown` conversion
(HTML, JSON, CSV, XML, plain text) is the output of the cleanup normalizer,
hence — when non-empty — a trim-fixed body followed by exactly one trailing
newline.  Word-processing (DOCX) conversions bypass the normalizer: their
content is trimmed (or the placeholder) and never ends with a newline. -/
theorem C2_amended :
    (∀ (td : String → String) (parse : String → Except String Json)
       (fileName fileType content v : String),
       convertContentToMarkdown td parse fileName fileType content = Except.ok v →
       (∃ x, v = cleanupMarkdownContent x) ∧
       (v ≠ "" → ∃ b, v = b ++ "\n" ∧ jsTrim b = b ∧ endsWithNl b = false)) ∧
    (∀ paras, endsWithNl (readDocxFile paras) = false) := by
  constructor
  · intro td parse fileName fileType content v h
    simp only [convertContentToMarkdown] at h
    split at h
    · exact absurd h (by simp)
    · injection h with hv
      refine ⟨⟨_, hv.symm⟩, ?_⟩
      intro hne
      rcases cleanup_shape
          (if jsIncludes (jsToLower fileType) "html" || jsEndsWith (jsToLower fileName) ".html" ||
              jsEndsWith (jsToLower fileName) ".htm" then td content
           else if jsIncludes (jsToLower fileType) "json" ||
              jsEndsWith (jsToLower fileName) ".json" then convertJsonToMarkdown parse content
           else if jsIncludes (jsToLower fileType) "csv" ||
              jsEndsWith (jsToLower fileName) ".csv" then convertCsvToMarkdown content
           else if jsIncludes (jsToLower fileType) "xml" ||
              jsEndsWith (jsToLower fileName) ".xml" then convertXmlToMarkdown td content
           else convertPlainTextToMarkdown content) with hc | ⟨b, hb, hbt, _, hbnl⟩
      · rw [← hv, hc] at hne
        exact absurd rfl hne
      · exact ⟨b, by rw [← hv, hb], hbt, hbnl⟩
  · intro paras
    exact endsWithNl_trim_or_placeholder _

/-- Witness for C2 (amended) at a concrete plain-text conversion. -/
theorem C2_amended_witness :
    (∃ x, "hi there\n" = cleanupMarkdownContent x) ∧
    ("hi there\n" ≠ "" →
      ∃ b, "hi there\n" = b ++ "\n" ∧ jsTrim b = b ∧ endsWithNl b = false) :=
  C2_amended.1 id (fun _ => Except.error "e") "a.txt" "text/plain" "hi there" "hi there\n" rfl

/-! ### Hierarchical array table (C6) -/

theorem collectKeys_spec : ∀ (array : List Json), (∀ j ∈ array, ∃ fs, j = Json.obj fs) →
    ∀ acc : List String,
      array.foldl
        (fun acc item =>
          if item.isObjLike then
            (jsKeys item).foldl (fun acc2 k => if acc2.contains k then acc2 else acc2 ++ [k]) acc
          else acc) acc =
      ((array.map jsKeys).flatten).foldl
        (fun acc k => if acc.contains k then acc else acc ++ [k]) acc := by
  intro array
  induction array with
  | nil =>
    intro _ acc
    rfl
  | cons a t ih =>
    intro h acc
    have ha : a.isObjLike = true := by
      obtain ⟨fs, hfs⟩ := h a (List.mem_cons_self _ _)
      rw [hfs]
      rfl
    simp only [List.foldl_cons, List.map_cons, List.flatten_cons, List.foldl_append, ha, if_true]
    exact ih (fun j hj => h j (List.mem_cons_of_mem _ hj)) _

/-- C6 (confirmed): when every element of the array is an object, the array
table's columns are the union of all elements' keys in first-seen order
across elements (refinement against the spec-worded `specFirstSeenKeyUnion`),
the table has exactly one data row per element, and a key missing from an
element renders as an empty cell. -/
theorem C6_arrayTable :
    ∀ array : List Json,
      array ≠ [] →
      (∀ j ∈ array, ∃ fs, j = Json.obj fs) →
      collectKeys array ≠ [] →
      collectKeys array = specFirstSeenKeyUnion array ∧
      convertArrayToMarkdownTable array =
        "**Array Table** (" ++ toString array.length ++ " items)\n\n" ++
        arrayTableHeader (collectKeys array) ++
        String.join (array.map (tableRowLine (collectKeys array))) ∧
      (array.map (tableRowLine (collectKeys array))).length = array.length ∧
      (∀ j ∈ array, ∀ k, jsHasKey j k = false → tableCellValue j k = "") := by
  intro array hne hobj hkeys
  refine ⟨?_, ?_, by simp, ?_⟩
  · unfold collectKeys specFirstSeenKeyUnion
    exact collectKeys_spec array hobj []
  · cases array with
    | nil => exact absurd rfl hne
    | cons a0 rest =>
      have ha0 : a0.isObjLike = true := by
        obtain ⟨fs, hfs⟩ := hobj a0 (List.mem_cons_self _ _)
        rw [hfs]
        rfl
      have hke : (collectKeys (a0 :: rest)).isEmpty = false := by
        cases hk : (collectKeys (a0 :: rest)).isEmpty
        · rfl
        · exact absurd (List.isEmpty_iff.mp hk) hkeys
      simp only [convertArrayToMarkdownTable, ha0, if_true, hke, Bool.false_eq_true, if_false]
  · intro j _ k hk
    unfold tableCellValue
    rw [hk]
    simp

/-- Witness for C6: the theorem applied to the spec's 3-object example, plus
its fully evaluated rendering — 3 columns `a, b, c` and 3 data rows with
empty cells for missing keys. -/
theorem C6_arrayTable_witness :
    (collectKeys exampleArray3 = specFirstSeenKeyUnion exampleArray3 ∧
     convertArrayToMarkdownTable exampleArray3 =
       "**Array Table** (" ++ toString exampleArray3.length ++ " items)\n\n" ++
       arrayTableHeader (collectKeys exampleArray3) ++
       String.join (exampleArray3.map (tableRowLine (collectKeys exampleArray3))) ∧
     (exampleArray3.map (tableRowLine (collectKeys exampleArray3))).length =
       exampleArray3.length ∧
     (∀ j ∈ exampleArray3, ∀ k, jsHasKey j k = false → tableCellValue j k = "")) ∧
    collectKeys exampleArray3 = ["a", "b", "c"] ∧
    convertArrayToMarkdownTable exampleArray3 =
      "**Array Table** (3 items)\n\n| a | b | c |\n| --- | --- | --- |\n| 1 | 2 |  |\n| 3 |  | 4 |\n| 5 | 6 |  |\n" :=
  ⟨C6_arrayTable exampleArray3 (by simp [exampleArray3])
      (by
        intro j hj
        simp only [exampleArray3, List.mem_cons, List.not_mem_nil, or_false] at hj
        rcases hj with h | h | h <;> exact ⟨_, h⟩)
      (by decide),
   by decide, by decide⟩

/-! ### Plain-text header levels (C7) -/

/-- C7 counterexample: `"CHAPTER 1"`, classified as a header and starting
with `Chapter`, is not the first non-blank line, yet the code assigns level
2 (the short-all-caps rule is checked before the `Chapter`/`Part` rule),
where the claim requires level 1. -/
theorem C7_counterexample :
    isHeader "CHAPTER 1" "" = true ∧
    chapterPartStart "CHAPTER 1" = true ∧
    isFirstNonBlank 1 ["Intro", "CHAPTER 1"] = false ∧
    getHeaderLevel "CHAPTER 1" 1 ["Intro", "CHAPTER 1"] = 2 := by
  refine ⟨by decide, by decide, by decide, by decide⟩

/-- C7 (amended): header level assignment with the code's rule order — 1 for
the first non-blank line; else 2 for a short fully-upper-case line; else 1
for `Chapter`/`Part`; else 2 for `Section`; else 3.  The
`"HELLO WORLD\n\nBody text."` example renders as claimed. -/
theorem C7_amended :
    (∀ line idx lines, isFirstNonBlank idx lines = true →
       getHeaderLevel line idx lines = 1) ∧
    (∀ line idx lines, isFirstNonBlank idx lines = false → shortCaps line = true →
       getHeaderLevel line idx lines = 2) ∧
    (∀ line idx lines, isFirstNonBlank idx lines = false → shortCaps line = false →
       chapterPartStart line = true → getHeaderLevel line idx lines = 1) ∧
    (∀ line idx lines, isFirstNonBlank idx lines = false → shortCaps line = false →
       chapterPartStart line = false → startsWithKeywordCI line "Section" = true →
       getHeaderLevel line idx lines = 2) ∧
    (∀ line idx lines, isFirstNonBlank idx lines = false → shortCaps line = false →
       chapterPartStart line = false → startsWithKeywordCI line "Section" = false →
       getHeaderLevel line idx lines = 3) ∧
    convertPlainTextToMarkdown "HELLO WORLD\n\nBody text." = "# HELLO WORLD\n\nBody text." := by
  refine ⟨?_, ?_, ?_, ?_, ?_, by decide⟩
  · intro line idx lines h1
    simp [getHeaderLevel, h1]
  · intro line idx lines h1 h2
    simp [getHeaderLevel, h1, h2]
  · intro line idx lines h1 h2 h3
    simp [getHeaderLevel, h1, h2, h3]
  · intro line idx lines h1 h2 h3 h4
    simp [getHeaderLevel, h1, h2, h3, h4]
  · intro line idx lines h1 h2 h3 h4
    simp [getHeaderLevel, h1, h2, h3, h4]

/-- Witness for C7 (amended): a mixed-case `Chapter` line that is not the
first non-blank line gets level 1 through the third rule. -/
theorem C7_amended_witness :
    getHeaderLevel "Chapter 2 Intro" 1 ["text", "Chapter 2 Intro"] = 1 :=
  C7_amended.2.2.1 "Chapter 2 Intro" 1 ["text", "Chapter 2 Intro"]
    (by decide) (by decide) (by decide)

/-! ### Word-processing heading levels (C8) -/

theorem minMatch_le_six (z : Option Int) (n : Int)
    (h : (match z with
          | some k => some ((k + 1) ⊓ 6)
          | none => none) = some n) : n ≤ 6 := by
  cases z with
  | none => simp at h
  | some k =>
    simp only [Option.some.injEq] at h
    omega

theorem outlineLevelOf_le_six (ol : Option (Option String)) (n : Int)
    (h : outlineLevelOf ol = some n) : n ≤ 6 := by
  unfold outlineLevelOf at h
  repeat split at h
  all_goals
    first
    | (simp only [Option.some.injEq] at h; omega)
    | exact minMatch_le_six _ n h
    | exact minMatch_le_six (jsParseInt "0") n h

/-- C8 counterexample: a paragraph styled `Heading7` gets heading level 7 —
outside 0–6 — and the extractor emits seven leading `#` markers. -/
theorem C8_counterexample :
    getHeadingLevel exampleHeading7Para = some 7 ∧
    extractParagraphText exampleHeading7Para = "####### Intro" :=
  ⟨by decide, by decide⟩

/-- C8 (amended): the heading level is at most 6 in every path *except* the
`Heading<N>` style pattern, which returns `N` unclamped (so `N > 6` emits
more than six `#`); when the level is positive and the paragraph text
non-empty, exactly `level` hash marks prefix the text. -/
theorem C8_amended :
    (∀ (p : DocxParagraph) (N : Nat), styleHeadingNum p = some N →
       getHeadingLevel p = some (N : Int)) ∧
    (∀ (p : DocxParagraph) (n : Int), styleHeadingNum p = none →
       getHeadingLevel p = some n → n ≤ 6) ∧
    (∀ (p : DocxParagraph) (n : Int), getHeadingLevel p = some n → 0 < n →
       (jsTrim ⟨collapseWs (extractRunsText p.runs "").data⟩).isEmpty = false →
       extractParagraphText p =
         repeatChar '#' n.toNat ++ " " ++
         jsTrim ⟨collapseWs (extractRunsText p.runs "").data⟩) := by
  refine ⟨?_, ?_, ?_⟩
  · intro p N hs
    rcases p with ⟨pPr, runs⟩
    cases pPr with
    | none => simp [styleHeadingNum] at hs
    | some pr =>
      rcases pr with ⟨sv, ol⟩
      cases sv with
      | none => simp [styleHeadingNum] at hs
      | some v =>
        simp only [styleHeadingNum] at hs
        by_cases hv : (!v.isEmpty) = true
        · rw [if_pos hv] at hs
          simp [getHeadingLevel, styleLevelResult, hv, hs]
        · rw [if_neg hv] at hs
          simp at hs
  · intro p n hs h
    rcases p with ⟨pPr, runs⟩
    cases pPr with
    | none =>
      simp only [getHeadingLevel, Option.some.injEq] at h
      omega
    | some pr =>
      rcases pr with ⟨sv, ol⟩
      cases sv with
      | none =>
        simp only [getHeadingLevel, styleLevelResult] at h
        exact outlineLevelOf_le_six ol n h
      | some v =>
        simp only [styleHeadingNum] at hs
        simp only [getHeadingLevel, styleLevelResult] at h
        by_cases hv : (!v.isEmpty) = true
        · rw [if_pos hv] at hs h
          rw [hs] at h
          by_cases hT : jsIncludes v "Title" = true
          · rw [if_pos hT] at h
            simp only [Option.some.injEq] at h
            omega
          · rw [if_neg hT] at h
            by_cases hS : jsIncludes v "Subtitle" = true
            · rw [if_pos hS] at h
              simp only [Option.some.injEq] at h
              omega
            · rw [if_neg hS] at h
              exact outlineLevelOf_le_six ol n h
        · rw [if_neg hv] at h
          exact outlineLevelOf_le_six ol n h
  · intro p n h hpos hne
    have hcond : (decide (0 < n) &&
        !(jsTrim ⟨collapseWs (extractRunsText p.runs "").data⟩).isEmpty) = true := by
      rw [hne]
      simp [hpos]
    simp only [extractParagraphText, h]
    rw [if_pos hcond]

/-- Witness for C8 (amended) at concrete paragraphs: the `Heading7` style
yields level 7 through the style path; an outline attribute `"4"` yields
level 5 ≤ 6 and emits five hash marks. -/
theorem C8_amended_witness :
    getHeadingLevel exampleHeading7Para = some ((7 : Nat) : Int) ∧
    (5 : Int) ≤ 6 ∧
    extractParagraphText exampleOutlinePara =
      repeatChar '#' ((5 : Int)).toNat ++ " " ++
      jsTrim ⟨collapseWs (extractRunsText exampleOutlinePara.runs "").data⟩ :=
  ⟨C8_amended.1 exampleHeading7Para 7 (by decide),
   C8_amended.2.1 exampleOutlinePara 5 (by decide) (by decide),
   C8_amended.2.2 exampleOutlinePara 5 (by decide) (by decide) (by decide)⟩
